import Mathlib

/-!
# dialogue: password-based locking of files and directory trees

A shallow embedding of `dialogue.go` (`Encrypt`, `Decrypt`) and of the archive
side of `cmd/main.go` (`archive`, `tryExtract`, `extract`).

Conventions of the embedding

* A Go byte is a `Fin 256`, a `[]byte` is a `List Byte`.
* A Go call ends in one of three ways, recorded by `Outcome`: it returns a
  value with a nil error, it returns a non-nil error, or it panics.
* Code of imported packages (`scrypt`, `aes`, `cipher`, `archive/tar`,
  `compress/gzip`, `os`) is not part of the repository.  Each package is a
  structure of functions the repository code is run against; what a theorem
  needs from a package is an explicit hypothesis.  `encoding/hex`,
  `strings.Replace`, `strings.TrimPrefix` and `filepath.Join` are small enough
  to be written out.
-/

namespace Dialogue

/-! ## Go values -/

/-- One Go `byte`. -/
abbrev Byte := Fin 256

/-- A Go `[]byte`. -/
abbrev Bytes := List Byte

/-- Go `error` values the code can meet. `other` stands for any error of an
imported package that the code only passes on. -/
inductive GoError where
  | EOF
  | ErrUnexpectedEOF
  | tarErrHeader
  | hexErrLength
  | hexInvalidByte (c : Char)
  | notExist
  | other (msg : String)
  deriving DecidableEq, Repr

/-- Run-time panics the code can raise. -/
inductive GoPanic where
  | sliceBounds
  | indexRange
  | gcmNonceLength
  deriving DecidableEq, Repr

/-- How a Go call of result type `(α, error)` ends. -/
inductive Outcome (α : Type) where
  | ok (v : α)
  | err (e : GoError)
  | panic (p : GoPanic)
  deriving DecidableEq, Repr

/-- Go `make([]byte, n)`: `n` zero bytes. -/
def make (n : Nat) : Bytes := List.replicate n 0

/-- Go `s[i:]` on a byte slice; panics when `i` is outside `0..len(s)`. -/
def sliceFrom (s : Bytes) (i : Int) : Outcome Bytes :=
  if 0 ≤ i ∧ i ≤ (s.length : Int) then .ok (s.drop i.toNat) else .panic .sliceBounds

/-- Go `s[:j]` on a byte slice; panics when `j` is outside `0..len(s)`. -/
def sliceTo (s : Bytes) (j : Int) : Outcome Bytes :=
  if 0 ≤ j ∧ j ≤ (s.length : Int) then .ok (s.take j.toNat) else .panic .sliceBounds

/-- Go `s[i]` on a byte slice; panics when `i` is not below `len(s)`. -/
def index (s : Bytes) (i : Nat) : Outcome Byte :=
  match s.get? i with
  | some b => .ok b
  | none => .panic .indexRange

/-! ## io.Reader -/

/-- An `io.Reader` as one `Read` call sees it: given `len(p)` it tells which
bytes it stores at the front of `p` and which error it returns. The count `n`
it returns is the number of bytes stored. -/
structure Reader where
  Read : Nat → Bytes × Option GoError

/-- The buffer `p` after a `Read` stored `data` at its front (never more than
`len(p)` bytes). -/
def stored (p data : Bytes) : Bytes :=
  data.take p.length ++ p.drop data.length

/-- The reader `strings.NewReader(s)` at its first `Read`: `0, io.EOF` when
nothing is left, else as many bytes as fit and a nil error. -/
def stringsNewReader (s : Bytes) : Reader where
  Read := fun n => if s.length = 0 then ([], some .EOF) else (s.take n, none)

/-! ## encoding/hex -/

/-- The table `hextable` of `encoding/hex`. -/
def hextable : List Char := "0123456789abcdef".data

/-- Function `hex.EncodeToString`: two digits per byte, high nibble first. -/
def hexEncodeToString : Bytes → List Char
  | [] => []
  | v :: rest =>
    hextable.getD (v.val >>> 4) '0' :: hextable.getD (v.val &&& 0x0f) '0' ::
      hexEncodeToString rest

/-- Function `fromHexChar` of `encoding/hex`. -/
def fromHexChar (c : Char) : Option Nat :=
  if '0'.toNat ≤ c.toNat ∧ c.toNat ≤ '9'.toNat then some (c.toNat - '0'.toNat)
  else if 'a'.toNat ≤ c.toNat ∧ c.toNat ≤ 'f'.toNat then some (c.toNat - 'a'.toNat + 10)
  else if 'A'.toNat ≤ c.toNat ∧ c.toNat ≤ 'F'.toNat then some (c.toNat - 'A'.toNat + 10)
  else none

/-- Function `hex.DecodeString`: the bytes decoded before the first fault, and
the fault (an invalid digit, or an odd length). -/
def hexDecodeString : List Char → Bytes × Option GoError
  | [] => ([], none)
  | [p] =>
    match fromHexChar p with
    | none => ([], some (.hexInvalidByte p))
    | some _ => ([], some .hexErrLength)
  | p :: q :: rest =>
    match fromHexChar p with
    | none => ([], some (.hexInvalidByte p))
    | some a =>
      match fromHexChar q with
      | none => ([], some (.hexInvalidByte q))
      | some b =>
        let r := hexDecodeString rest
        (Fin.ofNat ((a <<< 4) ||| b) :: r.1, r.2)

/-! ## The cipher packages -/

/-- The functions of `scrypt`, `crypto/aes` and `crypto/cipher` that
`dialogue.go` calls. `gcmSeal` and `gcmOpen` are the GCM computations behind
`Seal` and `Open` for a nonce of the right length. -/
structure CryptoLib where
  Block : Type
  AEAD : Type
  scryptKey : Bytes → Bytes → Nat → Nat → Nat → Nat → Except GoError Bytes
  aesNewCipher : Bytes → Except GoError Block
  cipherNewGCM : Block → Except GoError AEAD
  gcmSeal : AEAD → Bytes → Bytes → Bytes → Bytes
  gcmOpen : AEAD → Bytes → Bytes → Bytes → Except GoError Bytes

/-- The nonce size of the AEAD that `cipher.NewGCM` returns. -/
def gcmStandardNonceSize : Nat := 12

/-- Method `Seal(dst, nonce, plaintext, additionalData)`: panics on a nonce of
the wrong length, else appends the sealed bytes to `dst`. -/
def CryptoLib.Seal (L : CryptoLib) (g : L.AEAD) (dst nonce plaintext additionalData : Bytes) :
    Outcome Bytes :=
  if nonce.length ≠ gcmStandardNonceSize then .panic .gcmNonceLength
  else .ok (dst ++ L.gcmSeal g nonce plaintext additionalData)

/-- Method `Open(dst, nonce, ciphertext, additionalData)`: panics on a nonce of
the wrong length, fails when authentication fails, else appends the plaintext
to `dst`. -/
def CryptoLib.Open (L : CryptoLib) (g : L.AEAD) (dst nonce ciphertext additionalData : Bytes) :
    Outcome Bytes :=
  if nonce.length ≠ gcmStandardNonceSize then .panic .gcmNonceLength
  else
    match L.gcmOpen g nonce ciphertext additionalData with
    | .error e => .err e
    | .ok pt => .ok (dst ++ pt)

/-- What the cipher packages guarantee and the theorems about a successful
`Encrypt` or `Decrypt` rely on: scrypt with the fixed cost parameters returns a
key of the requested 32 bytes, AES accepts a 32-byte key, GCM accepts an AES
block, and opening what was sealed under the same key, nonce and associated
data gives the plaintext back. -/
structure CryptoLib.Lawful (L : CryptoLib) : Prop where
  scrypt_key : ∀ pw salt, ∃ dk, L.scryptKey pw salt 32768 8 1 32 = .ok dk ∧ dk.length = 32
  aes_new : ∀ key, key.length = 32 → ∃ b, L.aesNewCipher key = .ok b
  gcm_new : ∀ b, ∃ g, L.cipherNewGCM b = .ok g
  open_seal : ∀ g nonce pt aad, nonce.length = gcmStandardNonceSize →
    L.gcmOpen g nonce (L.gcmSeal g nonce pt aad) aad = .ok pt

/-! ## dialogue.go -/

/-- Constant `SaltLength`. -/
def SaltLength : Nat := 12

/-- Function `Encrypt(pt, passwd, r)`. -/
def Encrypt (L : CryptoLib) (pt passwd : Bytes) (r : Reader) : Outcome Bytes :=
  let nonce := make SaltLength
  let rd := r.Read nonce.length
  let nonce := stored nonce rd.1
  match rd.2 with
  | some err => .err err
  | none =>
    match L.scryptKey passwd nonce 32768 8 1 32 with
    | .error err => .err err
    | .ok dk =>
      match L.aesNewCipher dk with
      | .error err => .err err
      | .ok block =>
        match L.cipherNewGCM block with
        | .error err => .err err
        | .ok aesgcm =>
          match L.Seal aesgcm [] nonce pt [] with
          | .panic p => .panic p
          | .err err => .err err
          | .ok ct =>
            let ct := ct ++ nonce
            .ok ct

/-- Function `Decrypt(ct, passwd)`. The error of `hex.DecodeString` is
overwritten by the next assignment to `err` without being looked at. There is
no check of `len(ct)` before the two slice expressions. -/
def Decrypt (L : CryptoLib) (ct passwd : Bytes) : Outcome Bytes :=
  let cl : Int := (ct.length : Int) - (SaltLength : Int)
  match sliceFrom ct cl with
  | .panic p => .panic p
  | .err err => .err err
  | .ok salt =>
    let str := hexEncodeToString salt
    let nonce := (hexDecodeString str).1
    match L.scryptKey passwd nonce 32768 8 1 32 with
    | .error err => .err err
    | .ok dk =>
      match L.aesNewCipher dk with
      | .error err => .err err
      | .ok block =>
        match L.cipherNewGCM block with
        | .error err => .err err
        | .ok aesgcm =>
          match sliceTo ct cl with
          | .panic p => .panic p
          | .err err => .err err
          | .ok body =>
            match L.Open aesgcm [] nonce body [] with
            | .panic p => .panic p
            | .err err => .err err
            | .ok pt => .ok pt

/-! ## A stand-in for the cipher packages

`demoCrypto` has the shape of the cipher packages and meets `Lawful`; it gives
the theorems something to run on. It is not a cipher. -/

/-- Key derivation of the stand-in: the first `keyLen` bytes of password, salt
and zero padding. -/
def demoKey (passwd salt : Bytes) (keyLen : Nat) : Bytes :=
  (passwd ++ salt ++ make keyLen).take keyLen

/-- Tag of the stand-in: sixteen copies of the first key byte. -/
def demoTag (key : Bytes) : Bytes := List.replicate 16 (key.getD 0 0)

/-- Stand-in for the cipher packages. -/
def demoCrypto : CryptoLib where
  Block := Bytes
  AEAD := Bytes
  scryptKey := fun passwd salt _ _ _ keyLen => .ok (demoKey passwd salt keyLen)
  aesNewCipher := fun key =>
    if key.length = 16 ∨ key.length = 24 ∨ key.length = 32 then .ok key
    else .error (.other "crypto/aes: invalid key size")
  cipherNewGCM := fun b => .ok b
  gcmSeal := fun key _ pt _ => pt ++ demoTag key
  gcmOpen := fun key _ ct _ =>
    if ct.length < 16 then .error (.other "cipher: message authentication failed")
    else if ct.drop (ct.length - 16) = demoTag key then .ok (ct.take (ct.length - 16))
    else .error (.other "cipher: message authentication failed")

/-! ## strings and path/filepath (Unix) -/

/-- Function `strings.Replace(s, old, new, 1)` on the characters: the first
occurrence of `old` is replaced. -/
def replaceFirst (old new : List Char) : List Char → List Char
  | [] => if old = [] then new else []
  | c :: t =>
    if old.isPrefixOf (c :: t) then new ++ (c :: t).drop old.length
    else c :: replaceFirst old new t

/-- Function `strings.Replace(s, old, new, 1)`; it returns `s` at once when
`old == new`. -/
def stringsReplace1 (s old new : String) : String :=
  if old = new then s else String.mk (replaceFirst old.data new.data s.data)

/-- Function `strings.TrimPrefix(s, p)`. -/
def stringsTrimPrefix (s p : String) : String :=
  if p.data.isPrefixOf s.data then String.mk (s.data.drop p.data.length) else s

/-- The elements of a path between its separators. -/
def splitSep : List Char → List (List Char)
  | [] => [[]]
  | c :: cs =>
    match splitSep cs with
    | [] => [[]]
    | hd :: tl => if c = '/' then [] :: hd :: tl else (c :: hd) :: tl

/-- One element in `filepath.Clean`: empty and `.` elements vanish, `..`
removes the element before it, stays when there is none to remove in a
relative path, and vanishes at the root. The elements kept so far are in
reverse order. -/
def cleanStep (rooted : Bool) (kept : List (List Char)) (el : List Char) : List (List Char) :=
  if el = [] ∨ el = ['.'] then kept
  else if el = ['.', '.'] then
    match kept with
    | [] => if rooted then [] else [el]
    | top :: below => if top = ['.', '.'] then el :: kept else below
  else el :: kept

/-- Function `filepath.Clean`. -/
def filepathClean (path : String) : String :=
  let rooted := path.data.head? = some '/'
  let kept := ((splitSep path.data).foldl (cleanStep rooted) []).reverse
  let out := (if rooted then ['/'] else []) ++ List.intercalate ['/'] kept
  if out = [] then "." else String.mk out

/-- Function `filepath.Join`: leading empty elements are dropped, the rest is
joined by the separator and cleaned. -/
def filepathJoin (elems : List String) : String :=
  match elems.dropWhile (fun e => e = "") with
  | [] => ""
  | es => filepathClean (String.intercalate "/" es)

/-! ## archive/tar values -/

/-- The fields of `tar.Header` the code reads or writes. -/
structure Header where
  Name : String
  Typeflag : Byte
  Mode : Int
  Size : Int
  deriving DecidableEq, Repr

/-- Constant `tar.TypeReg`, the character `0`. -/
def TypeReg : Byte := 48

/-- Constant `tar.TypeDir`, the character `5`. -/
def TypeDir : Byte := 53

/-- Constant `tar.TypeSymlink`, the character `2`. -/
def TypeSymlink : Byte := 50

/-- One step of a `tar.Reader`: what `Next()` returns, and what reading the
entry body then delivers (`content`, and the error that ended the body if it
was not the regular end of the entry). -/
structure TarEvent where
  h : Option Header
  err : Option GoError
  content : Bytes
  readErr : Option GoError
  deriving DecidableEq, Repr

/-- A `tar.Reader` as `extract` sees it: the steps it will go through. When
they are used up `Next()` returns `io.EOF`. -/
abbrev TarReader := List TarEvent

/-- The functions of `archive/tar` and `compress/gzip` that `tryExtract` calls
on the payload. `tarNext br` is the first `Next()` of a fresh `tar.Reader` over
a byte reader holding `br`, with what is left in the byte reader afterwards;
`tarNewReader br` is a fresh `tar.Reader` over a byte reader holding `br`. -/
structure ArchiveLib where
  GzipReader : Type
  gzipNewReader : Bytes → Except GoError GzipReader
  tarOverGzip : GzipReader → TarReader
  tarNext : Bytes → (Option Header × Option GoError) × Bytes
  tarNewReader : Bytes → TarReader

/-! ## os -/

/-- The part of `os.FileInfo` the code looks at. -/
structure FileInfo where
  Name : String
  IsDir : Bool
  Mode : Nat
  deriving DecidableEq, Repr

/-- The functions of `os` that `extract` calls, over a type `FS` of
filesystem states. `Write fs f b` is all the writing `io.Copy` does to `f`. -/
structure OSLib where
  FS : Type
  File : Type
  Stat : FS → String → Except GoError FileInfo
  IsNotExist : GoError → Bool
  MkdirAll : FS → String → Nat → Option GoError × FS
  OpenFile : FS → String → Nat → Nat → Except GoError File × FS
  Write : FS → File → Bytes → Option GoError × FS
  Close : FS → File → Option GoError × FS

/-- Function `os.IsNotExist`; it is false of the nil error. -/
def OSLib.isNotExist (O : OSLib) : Option GoError → Bool
  | none => false
  | some e => O.IsNotExist e

/-- Constant `os.O_RDWR`. -/
def O_RDWR : Nat := 0x2

/-- Constant `os.O_CREATE`. -/
def O_CREATE : Nat := 0x40

/-- The conversion `os.FileMode(m)` of an `int64` to a 32-bit mode. -/
def fileMode (m : Int) : Nat := (m % 4294967296).toNat

/-- Function `io.Copy(f, tr)` for the body of the current entry: the body is
written to `f`; a write error is returned first, else the error that ended the
body. -/
def ioCopy (O : OSLib) (fs : O.FS) (f : O.File) (content : Bytes) (readErr : Option GoError) :
    Option GoError × O.FS :=
  let w := O.Write fs f content
  match w.1 with
  | some e => (some e, w.2)
  | none => (readErr, w.2)

/-! ## cmd/main.go -/

/-- The name `archive` gives the header of the entry at `file` when the root
is `src`. -/
def entryName (file src : String) : String :=
  stringsTrimPrefix (stringsReplace1 file src "") "/"

/-- The path `filepath.Walk` hands to its callback for the entry reached from
`root` through the directory entries `names`: the root as it was given, and
below it `Join(parent, name)` at each level. -/
def walkPath (root : String) (names : List String) : String :=
  names.foldl (fun parent name => filepathJoin [parent, name]) root

/-- An entry `filepath.Walk` visits: the names leading to it from the root,
whether it is a directory, its permission bits and, for a file, its bytes. -/
structure WalkEntry where
  names : List String
  IsDir : Bool
  Mode : Nat
  content : Bytes
  deriving DecidableEq, Repr

/-- Function `archive(src, ...)` on a tree all of whose reads succeed: the
headers and bodies handed to the tar writer, one per visited entry (regular
files and directories), in the order of the walk. -/
def archive (src : String) (visited : List WalkEntry) : List (Header × Bytes) :=
  visited.map fun e =>
    let file := walkPath src e.names
    ({ Name := entryName file src
       Typeflag := if e.IsDir then TypeDir else TypeReg
       Mode := e.Mode
       Size := if e.IsDir then 0 else e.content.length },
     if e.IsDir then [] else e.content)

/-- The loop of `extract`. -/
def extractLoop (O : OSLib) (dst : String) : TarReader → O.FS → Option GoError × O.FS
  | [], fs => (none, fs)
  | ev :: rest, fs =>
    if ev.err = some .EOF then (none, fs)
    else if ev.err ≠ none then (ev.err, fs)
    else
      match ev.h with
      | none => extractLoop O dst rest fs
      | some h =>
        let target := filepathJoin [dst, h.Name]
        if h.Typeflag = TypeDir then
          match O.Stat fs target with
          | .ok _ => extractLoop O dst rest fs
          | .error _ =>
            let m := O.MkdirAll fs target 0o755
            match m.1 with
            | some err => (some err, m.2)
            | none => extractLoop O dst rest m.2
        else if h.Typeflag = TypeReg then
          let o := O.OpenFile fs target (O_CREATE ||| O_RDWR) (fileMode h.Mode)
          match o.1 with
          | .error err => (some err, o.2)
          | .ok f =>
            let c := ioCopy O o.2 f ev.content ev.readErr
            match c.1 with
            | some err => (some err, c.2)
            | none =>
              let cl := O.Close c.2 f
              match cl.1 with
              | some err => (some err, cl.2)
              | none => extractLoop O dst rest cl.2
        else extractLoop O dst rest fs

/-- The error value of an `os.Stat` call. -/
def statErr (r : Except GoError FileInfo) : Option GoError :=
  match r with
  | .ok _ => none
  | .error e => some e

/-- Function `extract(tr, dst)`: the error it returns (`none` is nil) and the
filesystem it leaves. -/
def extract (O : OSLib) (fs : O.FS) (tr : TarReader) (dst : String) : Option GoError × O.FS :=
  let err := statErr (O.Stat fs dst)
  if O.isNotExist err then
    let m := O.MkdirAll fs dst 0o755
    match m.1 with
    | some err => (some err, m.2)
    | none => extractLoop O dst tr m.2
  else (err, fs)

/-- The condition `pt[0] == 31 && pt[1] == 139`, with the index panics of its
two reads; the second read happens only when the first comparison holds. -/
def gzipMagic (pt : Bytes) : Outcome Bool :=
  match index pt 0 with
  | .panic p => .panic p
  | .err e => .err e
  | .ok b0 =>
    if b0 = 31 then
      match index pt 1 with
      | .panic p => .panic p
      | .err e => .err e
      | .ok b1 => .ok (decide (b1 = 139))
    else .ok false

/-- The end of `tryExtract`: `extract(tr, dst)` and `return nil, nil` when it
did not fail. -/
def extractAll (O : OSLib) (fs : O.FS) (tr : TarReader) (dst : String) :
    Outcome (Option Bytes) × O.FS :=
  let r := extract O fs tr dst
  match r.1 with
  | some err => (.err err, r.2)
  | none => (.ok none, r.2)

/-- Function `tryExtract(pt, dst, logger)`: how the call ends (`ok none` is
the return `nil, nil`, `ok (some b)` the return `b, nil`) and the filesystem it
leaves. The deferred `gzr.Close()` only logs and is left out. -/
def tryExtract (A : ArchiveLib) (O : OSLib) (fs : O.FS) (pt : Bytes) (dst : String) :
    Outcome (Option Bytes) × O.FS :=
  let br := pt
  match gzipMagic pt with
  | .panic p => (.panic p, fs)
  | .err e => (.err e, fs)
  | .ok true =>
    match A.gzipNewReader br with
    | .error err => (.err err, fs)
    | .ok gzr => extractAll O fs (A.tarOverGzip gzr) dst
  | .ok false =>
    let n := A.tarNext br
    if n.1.2 = none then (.ok (some pt), fs)
    else extractAll O fs (A.tarNewReader n.2) dst

/-! ## Stand-ins for archive/tar and os

`v7Tar` reads plain V7 tar streams (512-byte blocks, octal fields, header
checksum, two zero blocks at the end) and has no decompressor; `memOS` is a
flat in-memory filesystem that compares paths as written. The general
statements below are run on them at concrete inputs. -/

/-- The bytes of a header block from offset `off`, `len` of them. -/
def field (blk : Bytes) (off len : Nat) : Bytes := (blk.drop off).take len

/-- Whether a byte is a NUL or a space, the padding of numeric fields. -/
def isPad (b : Byte) : Bool := b = 0 ∨ b = 32

/-- An octal field: padding stripped at both ends, then octal digits only. -/
def parseOctal (b : Bytes) : Option Nat :=
  let t := ((b.dropWhile isPad).reverse.dropWhile isPad).reverse
  t.foldl (fun acc d =>
    match acc with
    | none => none
    | some a => if 48 ≤ d.val ∧ d.val ≤ 55 then some (a * 8 + (d.val - 48)) else none) (some 0)

/-- A string field: the characters before the first NUL. -/
def parseString (b : Bytes) : String :=
  String.mk ((b.takeWhile (fun x => x ≠ 0)).map (fun x => Char.ofNat x.val))

/-- The checksum of a header block: the sum of its bytes with the checksum
field taken as eight spaces. -/
def blockSum (blk : Bytes) : Nat :=
  ((blk.take 148).map Fin.val).sum + 8 * 32 + ((blk.drop 156).map Fin.val).sum

/-- A V7 header block decoded; `tar.ErrHeader` on a bad checksum or number. -/
def v7Header (blk : Bytes) : Except GoError Header :=
  match parseOctal (field blk 148 8), parseOctal (field blk 100 8), parseOctal (field blk 124 12) with
  | some sum, some mode, some size =>
    if sum = blockSum blk then
      .ok { Name := parseString (field blk 0 100)
            Typeflag := blk.getD 156 0
            Mode := mode
            Size := size }
    else .error .tarErrHeader
  | _, _, _ => .error .tarErrHeader

/-- Function `io.ReadFull` of one 512-byte block: `io.EOF` when nothing is
left, `io.ErrUnexpectedEOF` when less than a block is. -/
def readBlock (r : Bytes) : Except GoError Bytes × Bytes :=
  if 512 ≤ r.length then (.ok (r.take 512), r.drop 512)
  else if r.length = 0 then (.error .EOF, [])
  else (.error .ErrUnexpectedEOF, [])

/-- The first `Next()` of a fresh reader over `r`. -/
def v7Next (r : Bytes) : (Option Header × Option GoError) × Bytes :=
  match readBlock r with
  | (.error e, r1) => ((none, some e), r1)
  | (.ok blk, r1) =>
    if blk = make 512 then
      match readBlock r1 with
      | (.error e, r2) => ((none, some e), r2)
      | (.ok blk2, r2) =>
        if blk2 = make 512 then ((none, some .EOF), r2) else ((none, some .tarErrHeader), r2)
    else
      match v7Header blk with
      | .error e => ((none, some e), r1)
      | .ok h => ((some h, none), r1)

/-- The steps of a reader over `r`; every step uses up at least one block, so
`fuel` above the number of blocks is enough. -/
def v7Events : Nat → Bytes → TarReader
  | 0, _ => []
  | fuel + 1, r =>
    match v7Next r with
    | ((some h, none), r1) =>
      let size := if h.Typeflag = TypeReg then h.Size.toNat else 0
      if r1.length < size then
        [{ h := some h, err := none, content := r1, readErr := some .ErrUnexpectedEOF }]
      else
        { h := some h, err := none, content := r1.take size, readErr := none } ::
          v7Events fuel (r1.drop ((size + 511) / 512 * 512))
    | ((_, some .EOF), _) => []
    | ((_, e), _) => [{ h := none, err := e, content := [], readErr := none }]

/-- Stand-in for `archive/tar` and `compress/gzip`. -/
def v7Tar : ArchiveLib where
  GzipReader := Unit
  gzipNewReader := fun _ => .error (.other "gzip: invalid header")
  tarOverGzip := fun _ => []
  tarNext := v7Next
  tarNewReader := fun r => v7Events (r.length / 512 + 1) r

/-- A node of the in-memory filesystem. -/
inductive MemNode where
  | dir
  | file (mode : Nat) (content : Bytes)
  deriving DecidableEq, Repr

/-- The in-memory filesystem: its paths and what is at each. -/
abbrev MemFS := List (String × MemNode)

/-- What is at a path, if anything. -/
def memLookup (fs : MemFS) (p : String) : Option MemNode :=
  (fs.find? (fun e => e.1 = p)).map (fun e => e.2)

/-- The filesystem with the node at `p` set to `n`. -/
def memPut (fs : MemFS) (p : String) (n : MemNode) : MemFS :=
  (fs.filter (fun e => e.1 ≠ p)) ++ [(p, n)]

/-- Stand-in for `os`. -/
def memOS : OSLib where
  FS := MemFS
  File := String
  Stat := fun fs p =>
    match memLookup fs p with
    | none => .error .notExist
    | some .dir => .ok { Name := p, IsDir := true, Mode := 0o755 }
    | some (.file mode _) => .ok { Name := p, IsDir := false, Mode := mode }
  IsNotExist := fun e => e = .notExist
  MkdirAll := fun fs p _ =>
    match memLookup fs p with
    | none => (none, memPut fs p .dir)
    | some .dir => (none, fs)
    | some (.file _ _) => (some (.other "not a directory"), fs)
  OpenFile := fun fs p _ perm =>
    match memLookup fs p with
    | none => (.ok p, memPut fs p (.file perm []))
    | some .dir => (.error (.other "is a directory"), fs)
    | some (.file _ _) => (.ok p, fs)
  Write := fun fs f b =>
    match memLookup fs f with
    | some (.file mode old) => (none, memPut fs f (.file mode (b ++ old.drop b.length)))
    | _ => (some (.other "bad file descriptor"), fs)
  Close := fun fs _ => (none, fs)

/-- The bytes of an ASCII string. -/
def ascii (s : String) : Bytes := s.data.map (fun c => Fin.ofNat c.toNat)


/-! ## Sample inputs -/

/-- The V7 header block of a directory `d` with mode 0755. -/
def dirHeaderBlock : Bytes :=
  ascii "d" ++ make 99 ++ ascii "0000755" ++ [0] ++ ascii "0000000" ++ [0] ++
    ascii "0000000" ++ [0] ++ ascii "00000000000" ++ [0] ++ ascii "00000000000" ++ [0] ++
    ascii "004672" ++ [0, 32] ++ ascii "5" ++ make 355

/-- A tar stream holding the directory `d` and the two zero blocks that end
an archive. -/
def dirArchive : Bytes := dirHeaderBlock ++ make 1024

/-- A tar reader about to deliver one symbolic link `link` and then the end of
the stream. -/
def symlinkStream : TarReader :=
  [{ h := some { Name := "link", Typeflag := TypeSymlink, Mode := 0o777, Size := 0 }
     err := none, content := [], readErr := none }]

/-- A step of a tar reader delivering the directory `d`. -/
def dirEvent : TarEvent :=
  { h := some { Name := "d", Typeflag := TypeDir, Mode := 0o755, Size := 0 }
    err := none, content := [], readErr := none }

/-- A step of a tar reader failing with `tar.ErrHeader`. -/
def badEvent : TarEvent :=
  { h := none, err := some .tarErrHeader, content := [], readErr := none }

/-- A step whose `Next()` failed with an error other than the end of the
stream: a malformed record. -/
def TarEvent.malformed (ev : TarEvent) : Prop :=
  ev.err ≠ none ∧ ev.err ≠ some .EOF

instance (ev : TarEvent) : Decidable ev.malformed := by
  unfold TarEvent.malformed
  infer_instance

/-- A step whose `Next()` delivered a header that is neither a directory nor
a regular file. -/
def TarEvent.unrecognized (ev : TarEvent) : Prop :=
  ev.err = none ∧
    match ev.h with
    | some h => h.Typeflag ≠ TypeDir ∧ h.Typeflag ≠ TypeReg
    | none => False

instance (ev : TarEvent) : Decidable ev.unrecognized := by
  unfold TarEvent.unrecognized
  cases ev.h <;> infer_instance

/-! ## Lemmas: hex, slices, the stand-in cipher -/

set_option maxRecDepth 100000 in
theorem fromHexChar_high (v : Byte) :
    fromHexChar (hextable.getD (v.val >>> 4) '0') = some (v.val >>> 4) := by
  revert v; decide

set_option maxRecDepth 100000 in
theorem fromHexChar_low (v : Byte) :
    fromHexChar (hextable.getD (v.val &&& 0x0f) '0') = some (v.val &&& 0x0f) := by
  revert v; decide

set_option maxRecDepth 100000 in
theorem nibbles_join (v : Byte) :
    (Fin.ofNat (((v.val >>> 4) <<< 4) ||| (v.val &&& 0x0f)) : Byte) = v := by
  revert v; decide

/-- Decoding what `hex.EncodeToString` wrote gives the bytes back, with a nil
error. -/
theorem hexDecodeString_hexEncodeToString (bs : Bytes) :
    hexDecodeString (hexEncodeToString bs) = (bs, none) := by
  induction bs with
  | nil => rfl
  | cons v rest ih =>
    simp only [hexEncodeToString, hexDecodeString, fromHexChar_high, fromHexChar_low, ih,
      nibbles_join]

theorem stored_length (p data : Bytes) : (stored p data).length = p.length := by
  simp only [stored, List.length_append, List.length_take, List.length_drop]
  omega

theorem make_length (n : Nat) : (make n).length = n := by
  simp [make]

theorem sliceFrom_append (body tail : Bytes) :
    sliceFrom (body ++ tail) (((body ++ tail).length : Int) - (tail.length : Int)) = .ok tail := by
  have h : ((body ++ tail).length : Int) - (tail.length : Int) = (body.length : Int) := by
    simp [List.length_append]
  rw [h]
  simp [sliceFrom, List.length_append]

theorem sliceTo_append (body tail : Bytes) :
    sliceTo (body ++ tail) (((body ++ tail).length : Int) - (tail.length : Int)) = .ok body := by
  have h : ((body ++ tail).length : Int) - (tail.length : Int) = (body.length : Int) := by
    simp [List.length_append]
  rw [h]
  simp [sliceTo, List.length_append]

theorem demoCrypto_lawful : demoCrypto.Lawful where
  scrypt_key := by
    intro pw salt
    refine ⟨demoKey pw salt 32, rfl, ?_⟩
    simp [demoKey, make]
    omega
  aes_new := by
    intro key hk
    exact ⟨key, by simp [demoCrypto, hk]⟩
  gcm_new := fun b => ⟨b, rfl⟩
  open_seal := by
    intro g nonce pt aad _
    simp [demoCrypto, demoTag]

/-! ## Lemmas: the two paths through Encrypt and Decrypt -/

/-- With the cipher packages behaving as documented and a read that returns a
nil error, `Encrypt` seals under the nonce left in the buffer and appends
that nonce. -/
theorem Encrypt_ok (L : CryptoLib) (hL : L.Lawful) (pt passwd : Bytes) (r : Reader)
    (hr : (r.Read SaltLength).2 = none) :
    ∃ dk block g,
      L.scryptKey passwd (stored (make SaltLength) (r.Read SaltLength).1) 32768 8 1 32 = .ok dk ∧
      L.aesNewCipher dk = .ok block ∧ L.cipherNewGCM block = .ok g ∧
      Encrypt L pt passwd r =
        .ok (L.gcmSeal g (stored (make SaltLength) (r.Read SaltLength).1) pt [] ++
          stored (make SaltLength) (r.Read SaltLength).1) := by
  obtain ⟨dk, hdk, hlen⟩ := hL.scrypt_key passwd (stored (make SaltLength) (r.Read SaltLength).1)
  obtain ⟨block, hb⟩ := hL.aes_new dk hlen
  obtain ⟨g, hg⟩ := hL.gcm_new block
  refine ⟨dk, block, g, hdk, hb, hg, ?_⟩
  have hn : (stored (make SaltLength) (r.Read SaltLength).1).length = gcmStandardNonceSize := by
    rw [stored_length, make_length]; rfl
  simp only [Encrypt, make_length, hr, hdk, hb, hg, CryptoLib.Seal, hn, ne_eq, not_true_eq_false,
    if_false, List.nil_append]

/-- A read that returns an error makes `Encrypt` return that error. -/
theorem Encrypt_read_error (L : CryptoLib) (pt passwd : Bytes) (r : Reader) (e : GoError)
    (hr : (r.Read SaltLength).2 = some e) : Encrypt L pt passwd r = .err e := by
  simp only [Encrypt, make_length, hr]

/-- With the cipher packages behaving as documented, `Decrypt` opens a
container made of a sealed body and the 12-byte nonce it was sealed under. -/
theorem Decrypt_sealed (L : CryptoLib) (hL : L.Lawful) (pt passwd nonce : Bytes)
    (dk : Bytes) (block : L.Block) (g : L.AEAD) (hn : nonce.length = SaltLength)
    (hdk : L.scryptKey passwd nonce 32768 8 1 32 = .ok dk)
    (hb : L.aesNewCipher dk = .ok block) (hg : L.cipherNewGCM block = .ok g) :
    Decrypt L (L.gcmSeal g nonce pt [] ++ nonce) passwd = .ok pt := by
  have hn2 : nonce.length = gcmStandardNonceSize := hn
  have h1 := sliceFrom_append (L.gcmSeal g nonce pt []) nonce
  have h2 := sliceTo_append (L.gcmSeal g nonce pt []) nonce
  rw [hn] at h1 h2
  simp only [Decrypt, h1, h2, hexDecodeString_hexEncodeToString, hdk, hb, hg, CryptoLib.Open,
    hn2, ne_eq, not_true_eq_false, if_false, hL.open_seal g nonce pt [] hn2, List.nil_append]

/-! ## Lemmas: extract -/

/-- A step that reports an error other than the end of the stream makes the
loop of `extract` return an error, whatever came before it in the stream as
long as no earlier step reported the end of the stream. -/
theorem extractLoop_malformed (O : OSLib) (dst : String) (bad : TarEvent) (post : TarReader)
    (hbad : bad.err ≠ none ∧ bad.err ≠ some .EOF) :
    ∀ (pre : TarReader) (fs : O.FS), (∀ ev ∈ pre, ev.err ≠ some .EOF) →
      (extractLoop O dst (pre ++ bad :: post) fs).1 ≠ none := by
  intro pre
  induction pre with
  | nil =>
    intro fs _
    simp only [List.nil_append, extractLoop, hbad.2, hbad.1, if_false, ne_eq, not_false_eq_true,
      if_true]
  | cons ev rest ih =>
    intro fs hpre
    have hev : ev.err ≠ some .EOF := hpre ev (List.mem_cons_self _ _)
    have hrest : ∀ e ∈ rest, e.err ≠ some .EOF := fun e he => hpre e (List.mem_cons_of_mem _ he)
    simp only [List.cons_append, extractLoop, hev, if_false]
    split
    · assumption
    · split
      · exact ih fs hrest
      · split
        · split
          · exact ih fs hrest
          · split
            · simp_all
            · exact ih _ hrest
        · split
          · split
            · simp
            · split
              · simp_all
              · split
                · simp_all
                · exact ih _ hrest
          · exact ih fs hrest

/-! ## The claims -/

/-- C1. Round trip: for every plaintext `P`, password `W` and random source
whose read returns a nil error, `Encrypt` returns a container `ct` and
`Decrypt ct W` returns `P` with no error; the hex encoding and decoding of the
trailing salt that `Decrypt` goes through is the identity. The cipher packages
are taken to behave as documented (`Lawful`). -/
theorem C1_decrypt_encrypt_round_trip (L : CryptoLib) (hL : L.Lawful) (P W : Bytes) (r : Reader)
    (hr : (r.Read SaltLength).2 = none) :
    ∃ ct, Encrypt L P W r = .ok ct ∧ Decrypt L ct W = .ok P ∧
      hexDecodeString (hexEncodeToString (ct.drop (ct.length - SaltLength))) =
        (ct.drop (ct.length - SaltLength), none) := by
  obtain ⟨dk, block, g, hdk, hb, hg, henc⟩ := Encrypt_ok L hL P W r hr
  refine ⟨_, henc, ?_, hexDecodeString_hexEncodeToString _⟩
  exact Decrypt_sealed L hL P W _ dk block g (by rw [stored_length, make_length]) hdk hb hg

/-- C1, at the input of the repository test: plaintext `Simple`, password
`test`, reader over `Test salt!!!`, run against the stand-in cipher. -/
theorem C1_decrypt_encrypt_round_trip_witness :
    ((stringsNewReader (ascii "Test salt!!!")).Read SaltLength).2 = none ∧
    ∃ ct, Encrypt demoCrypto (ascii "Simple") (ascii "test")
        (stringsNewReader (ascii "Test salt!!!")) = .ok ct ∧
      Decrypt demoCrypto ct (ascii "test") = .ok (ascii "Simple") ∧
      hexDecodeString (hexEncodeToString (ct.drop (ct.length - SaltLength))) =
        (ct.drop (ct.length - SaltLength), none) :=
  ⟨by decide, C1_decrypt_encrypt_round_trip demoCrypto demoCrypto_lawful (ascii "Simple")
    (ascii "test") (stringsNewReader (ascii "Test salt!!!")) (by decide)⟩

/-- C2. For a payload without the gzip magic whose first record fails to
parse, `tryExtract` does not hand the payload back: it runs `extract` on a
second tar reader over what the first one left of the payload, under the
destination path, and returns `nil` or an error. -/
theorem C2_tryExtract_parse_failure_extracts (A : ArchiveLib) (O : OSLib) (fs : O.FS)
    (pt : Bytes) (dst : String) (e : GoError)
    (hmagic : gzipMagic pt = .ok false) (hfail : (A.tarNext pt).1.2 = some e) :
    tryExtract A O fs pt dst = extractAll O fs (A.tarNewReader (A.tarNext pt).2) dst ∧
    (tryExtract A O fs pt dst).1 ≠ .ok (some pt) := by
  have h : tryExtract A O fs pt dst = extractAll O fs (A.tarNewReader (A.tarNext pt).2) dst := by
    simp only [tryExtract, hmagic, hfail, reduceCtorEq, if_false]
  refine ⟨h, ?_⟩
  rw [h]
  simp only [extractAll]
  split <;> simp

/-- C2, at the five-byte payload `hello` with nothing at the destination
`out`: the first record fails with `io.ErrUnexpectedEOF`, and the call
returns `nil, nil` having created the directory `out`. -/
theorem C2_tryExtract_parse_failure_extracts_witness :
    gzipMagic (ascii "hello") = .ok false ∧
    (v7Tar.tarNext (ascii "hello")).1.2 = some .ErrUnexpectedEOF ∧
    tryExtract v7Tar memOS [] (ascii "hello") "out" = (.ok none, [("out", .dir)]) ∧
    (tryExtract v7Tar memOS [] (ascii "hello") "out" =
        extractAll memOS [] (v7Tar.tarNewReader (v7Tar.tarNext (ascii "hello")).2) "out" ∧
      (tryExtract v7Tar memOS [] (ascii "hello") "out").1 ≠ .ok (some (ascii "hello"))) :=
  ⟨by decide, by decide, by rfl,
    C2_tryExtract_parse_failure_extracts v7Tar memOS [] (ascii "hello") "out" .ErrUnexpectedEOF
      (by decide) (by decide)⟩

/-- C3. For a payload without the gzip magic whose first record parses,
`tryExtract` hands the payload back as raw bytes with a nil error and leaves
the filesystem as it was: nothing is extracted. -/
theorem C3_tryExtract_archive_returned_raw (A : ArchiveLib) (O : OSLib) (fs : O.FS)
    (pt : Bytes) (dst : String)
    (hmagic : gzipMagic pt = .ok false) (hparse : (A.tarNext pt).1.2 = none) :
    tryExtract A O fs pt dst = (.ok (some pt), fs) := by
  simp only [tryExtract, hmagic, hparse, if_true]

set_option maxRecDepth 1000000 in
/-- C3, at a tar stream holding one directory: the stream comes back as raw
bytes and the destination `out` is not created. -/
theorem C3_tryExtract_archive_returned_raw_witness :
    gzipMagic dirArchive = .ok false ∧ (v7Tar.tarNext dirArchive).1.2 = none ∧
    tryExtract v7Tar memOS [] dirArchive "out" = (.ok (some dirArchive), []) :=
  ⟨by decide, by decide,
    C3_tryExtract_archive_returned_raw v7Tar memOS [] dirArchive "out" (by decide) (by decide)⟩

/-- C4. For a container shorter than 12 bytes `Decrypt` does not return an
error: the slice `ct[cl:]` with a negative `cl` panics before anything else is
done, whatever the password and the cipher packages. -/
theorem C4_Decrypt_short_container_panics (L : CryptoLib) (ct passwd : Bytes)
    (h : ct.length < 12) : Decrypt L ct passwd = .panic .sliceBounds := by
  have hneg : ¬ (0 ≤ (ct.length : Int) - (SaltLength : Int) ∧
      (ct.length : Int) - (SaltLength : Int) ≤ (ct.length : Int)) := by
    simp only [SaltLength]; omega
  simp only [Decrypt, sliceFrom, hneg, if_false]

/-- C4, at the empty container. -/
theorem C4_Decrypt_short_container_panics_witness :
    ([] : Bytes).length < 12 ∧ Decrypt demoCrypto [] (ascii "test") = .panic .sliceBounds :=
  ⟨by decide, C4_Decrypt_short_container_panics demoCrypto [] (ascii "test") (by decide)⟩

/-- C5. When a read delivers fewer than 12 bytes with a nil error, `Encrypt`
does not fail: it returns a container sealed under the delivered bytes padded
with zeros, and that padded nonce is the tail of the container. The cipher
packages are taken to behave as documented (`Lawful`). -/
theorem C5_Encrypt_short_read_seals (L : CryptoLib) (hL : L.Lawful) (pt passwd data : Bytes)
    (r : Reader) (hr : r.Read SaltLength = (data, none)) (hshort : data.length < SaltLength) :
    ∃ g, Encrypt L pt passwd r =
      .ok (L.gcmSeal g (data ++ make (SaltLength - data.length)) pt [] ++
        (data ++ make (SaltLength - data.length))) := by
  have hr2 : (r.Read SaltLength).2 = none := by rw [hr]
  obtain ⟨dk, block, g, -, -, -, henc⟩ := Encrypt_ok L hL pt passwd r hr2
  have hst : stored (make SaltLength) (r.Read SaltLength).1 =
      data ++ make (SaltLength - data.length) := by
    rw [hr]
    simp only [stored, make, List.length_replicate, List.drop_replicate]
    rw [List.take_of_length_le (Nat.le_of_lt hshort)]
  rw [hst] at henc
  exact ⟨g, henc⟩

/-- C5, at a reader over the three bytes `abc`: the container ends in `abc`
and nine zero bytes. -/
theorem C5_Encrypt_short_read_seals_witness :
    (stringsNewReader (ascii "abc")).Read SaltLength = (ascii "abc", none) ∧
    (ascii "abc").length < SaltLength ∧
    ∃ g, Encrypt demoCrypto [] [] (stringsNewReader (ascii "abc")) =
      .ok (demoCrypto.gcmSeal g (ascii "abc" ++ make (SaltLength - (ascii "abc").length)) [] [] ++
        (ascii "abc" ++ make (SaltLength - (ascii "abc").length))) :=
  ⟨by decide, by decide,
    C5_Encrypt_short_read_seals demoCrypto demoCrypto_lawful [] [] (ascii "abc")
      (stringsNewReader (ascii "abc")) (by decide) (by decide)⟩

/-- C6. Container layout and determinism: when the random source yields the
12 bytes `n`, `Encrypt` returns the GCM seal of `P` under the key
`scrypt(W, n, 32768, 8, 1, 32)` and the nonce `n`, with no associated data,
followed by `n`; the last 12 bytes of the container are `n`; and every call
with a source that yields the same `n` returns the same container. The cipher
packages are taken to behave as documented (`Lawful`). -/
theorem C6_Encrypt_layout (L : CryptoLib) (hL : L.Lawful) (P W n : Bytes) (r : Reader)
    (hn : n.length = SaltLength) (hr : r.Read SaltLength = (n, none)) :
    ∃ dk block g, L.scryptKey W n 32768 8 1 32 = .ok dk ∧ L.aesNewCipher dk = .ok block ∧
      L.cipherNewGCM block = .ok g ∧
      Encrypt L P W r = .ok (L.gcmSeal g n P [] ++ n) ∧
      (L.gcmSeal g n P [] ++ n).drop ((L.gcmSeal g n P [] ++ n).length - SaltLength) = n ∧
      ∀ r2 : Reader, r2.Read SaltLength = (n, none) → Encrypt L P W r2 = Encrypt L P W r := by
  have hst : ∀ q : Reader, q.Read SaltLength = (n, none) →
      stored (make SaltLength) (q.Read SaltLength).1 = n := by
    intro q hq
    rw [hq]
    simp only [stored, make, List.length_replicate, List.drop_replicate, hn, Nat.sub_self,
      List.replicate_zero, List.append_nil]
    rw [← hn, List.take_length]
  have hr2 : (r.Read SaltLength).2 = none := by rw [hr]
  obtain ⟨dk, block, g, hdk, hb, hg, henc⟩ := Encrypt_ok L hL P W r hr2
  rw [hst r hr] at hdk henc
  refine ⟨dk, block, g, hdk, hb, hg, henc, ?_, ?_⟩
  · simp [List.length_append, hn]
  · intro r2 h2
    have h22 : (r2.Read SaltLength).2 = none := by rw [h2]
    obtain ⟨dk2, block2, g2, hdk2, hb2, hg2, henc2⟩ := Encrypt_ok L hL P W r2 h22
    rw [hst r2 h2] at hdk2 henc2
    rw [hdk] at hdk2
    cases hdk2
    rw [hb] at hb2
    cases hb2
    rw [hg] at hg2
    cases hg2
    rw [henc, henc2]

/-- C6, at the input of the repository test, run against the stand-in
cipher. -/
theorem C6_Encrypt_layout_witness :
    (ascii "Test salt!!!").length = SaltLength ∧
    (stringsNewReader (ascii "Test salt!!!")).Read SaltLength = (ascii "Test salt!!!", none) ∧
    ∃ dk block g, demoCrypto.scryptKey (ascii "test") (ascii "Test salt!!!") 32768 8 1 32 = .ok dk ∧
      demoCrypto.aesNewCipher dk = .ok block ∧ demoCrypto.cipherNewGCM block = .ok g ∧
      Encrypt demoCrypto (ascii "Simple") (ascii "test") (stringsNewReader (ascii "Test salt!!!")) =
        .ok (demoCrypto.gcmSeal g (ascii "Test salt!!!") (ascii "Simple") [] ++
          ascii "Test salt!!!") ∧
      (demoCrypto.gcmSeal g (ascii "Test salt!!!") (ascii "Simple") [] ++ ascii "Test salt!!!").drop
        ((demoCrypto.gcmSeal g (ascii "Test salt!!!") (ascii "Simple") [] ++
          ascii "Test salt!!!").length - SaltLength) = ascii "Test salt!!!" ∧
      ∀ r2 : Reader, r2.Read SaltLength = (ascii "Test salt!!!", none) →
        Encrypt demoCrypto (ascii "Simple") (ascii "test") r2 =
          Encrypt demoCrypto (ascii "Simple") (ascii "test")
            (stringsNewReader (ascii "Test salt!!!")) :=
  ⟨by decide, by decide,
    C6_Encrypt_layout demoCrypto demoCrypto_lawful (ascii "Simple") (ascii "test")
      (ascii "Test salt!!!") (stringsNewReader (ascii "Test salt!!!")) (by decide) (by decide)⟩

/-- C7. When `os.Stat` finds something at the destination path, a file or a
directory, `extract` returns nil at once: it reads no record and changes
nothing. -/
theorem C7_extract_occupied_destination_succeeds (O : OSLib) (fs : O.FS) (tr : TarReader)
    (dst : String) (fi : FileInfo) (hstat : O.Stat fs dst = .ok fi) :
    extract O fs tr dst = (none, fs) := by
  simp only [extract, hstat, statErr, OSLib.isNotExist, Bool.false_eq_true, if_false]

/-- C7, with a regular file at the destination `out` and a stream holding a
symbolic link: nil is returned and the filesystem is unchanged. -/
theorem C7_extract_occupied_destination_succeeds_witness :
    memOS.Stat [("out", .file 0o644 [])] "out" =
      .ok { Name := "out", IsDir := false, Mode := 0o644 } ∧
    extract memOS [("out", .file 0o644 [])] symlinkStream "out" =
      (none, [("out", .file 0o644 [])]) :=
  ⟨by rfl, C7_extract_occupied_destination_succeeds memOS [("out", .file 0o644 [])] symlinkStream
    "out" { Name := "out", IsDir := false, Mode := 0o644 } (by rfl)⟩

/-- C8 as stated fails: a stream holding a symbolic link record, extracted to
a free destination, makes `extract` return nil. -/
theorem C8_counterexample :
    (∃ ev ∈ symlinkStream, ev.malformed ∨ ev.unrecognized) ∧
    memOS.Stat [] "out" = .error .notExist ∧
    extract memOS [] symlinkStream "out" = (none, [("out", .dir)]) := by
  refine ⟨⟨_, List.mem_cons_self _ _, Or.inr (by decide)⟩, by rfl, by rfl⟩

/-- C8, amended. For every stream that holds a malformed record, with no end
of stream reported before it, and every destination path at which `os.Stat`
finds nothing, `extract` returns an error; a record whose type is neither
directory nor regular file is not an error: the loop skips it, leaving the
filesystem as it is, and goes on with the rest of the stream. -/
theorem C8_extract_malformed_fails_unrecognized_skipped (O : OSLib) (fs : O.FS) (dst : String)
    (pre : TarReader) (bad : TarEvent) (post : TarReader)
    (hdst : O.isNotExist (statErr (O.Stat fs dst)) = true)
    (hpre : ∀ ev ∈ pre, ev.err ≠ some .EOF) (hbad : bad.malformed) :
    (extract O fs (pre ++ bad :: post) dst).1 ≠ none ∧
    ∀ (ev : TarEvent) (rest : TarReader) (fs2 : O.FS), ev.unrecognized →
      extractLoop O dst (ev :: rest) fs2 = extractLoop O dst rest fs2 := by
  constructor
  · simp only [extract, hdst, if_true]
    split
    · simp_all
    · exact extractLoop_malformed O dst bad post hbad pre _ hpre
  · rintro ev rest fs2 ⟨herr, hty⟩
    cases hh : ev.h with
    | none => simp only [extractLoop, herr, hh, reduceCtorEq, if_false, ne_eq, not_true_eq_false]
    | some h =>
      rw [hh] at hty
      simp only [extractLoop, herr, hh, hty.1, hty.2, reduceCtorEq, if_false, ne_eq,
        not_true_eq_false]

/-- C8 amended, at a stream holding a directory and then a record that fails
with `tar.ErrHeader`, extracted to the free destination `out`. -/
theorem C8_extract_malformed_fails_unrecognized_skipped_witness :
    memOS.isNotExist (statErr (memOS.Stat [] "out")) = true ∧
    (∀ ev ∈ [dirEvent], ev.err ≠ some .EOF) ∧
    badEvent.malformed ∧
    ((extract memOS [] ([dirEvent] ++ badEvent :: []) "out").1 ≠ none ∧
      ∀ (ev : TarEvent) (rest : TarReader) (fs2 : memOS.FS), ev.unrecognized →
        extractLoop memOS "out" (ev :: rest) fs2 = extractLoop memOS "out" rest fs2) :=
  ⟨by rfl, by decide, by decide,
    C8_extract_malformed_fails_unrecognized_skipped memOS [] "out" [dirEvent]
      badEvent [] (by rfl) (by decide) (by decide)⟩

/-- C9. The header name is not the path relative to the root when the root is
`.` or `./dir`: under `.` the file `a.txt` is written as `atxt` (its own dot
is the first occurrence of the root that `strings.Replace` finds), and under
`./dir` the file `a.txt` is written as `dir/a.txt` (the walk hands over the
cleaned path `dir/a.txt`, in which the root does not occur). Under the clean
root `dir` the same file is written as `a.txt`. -/
theorem C9_archive_names_unclean_root :
    (archive "." [⟨["a.txt"], false, 0o644, []⟩]).map (fun e => e.1.Name) = ["atxt"] ∧
    (archive "./dir" [⟨["a.txt"], false, 0o644, []⟩]).map (fun e => e.1.Name) = ["dir/a.txt"] ∧
    (archive "dir" [⟨["a.txt"], false, 0o644, []⟩]).map (fun e => e.1.Name) = ["a.txt"] := by
  decide

/-- C10. On the empty payload and on the one-byte payload `31` the gzipMagic
check of `tryExtract` indexes past the end of the payload: the call panics,
whatever the packages, the filesystem and the destination. -/
theorem C10_tryExtract_short_payload_panics (A : ArchiveLib) (O : OSLib) (fs : O.FS)
    (dst : String) :
    tryExtract A O fs [] dst = (.panic .indexRange, fs) ∧
    tryExtract A O fs [31] dst = (.panic .indexRange, fs) :=
  ⟨rfl, rfl⟩

end Dialogue
